import Mathlib

/-
Verification development for `mobile/roots_gen.go`: a generator that fetches
Apple's trusted-root support page, extracts (name, fingerprint) pairs from an
HTML table, matches them by SHA-256 fingerprint against the local keychain's
PEM-encoded certificates, filters by a hardcoded subject allow-list, and emits
a generated Go source file.

The Go code is shallowly embedded below.  Pure string manipulation
(`strings.Index`, `strings.ReplaceAll`, `strings.ToLower`, and the three fixed
regular expressions `(?s)<tr>(.*?)</tr>`, `(?s)<th>(.*?)</th>`,
`(?s)<td>(.*?)</td>`) is modelled directly on `List Char`.  External
collaborators that are not part of the repository (the HTTP transport, the
`security` command, `x509.ParseCertificate`, `sha256`+hex, `pem.Encode` and
`go/format`) are parameters of the embedded functions.  Go runtime panics
(out-of-range indexing / slicing) are modelled as an explicit `panicked`
outcome, distinct from a returned `error`.  Go maps are modelled as
association lists where insertion conses at the front and lookup takes the
first hit, which realises last-write-wins semantics.
-/

set_option maxRecDepth 4096

/-- A parsed X.509 certificate: its raw DER bytes (`cert.Raw`) and the
canonical subject string (`cert.Subject.String()`). -/
structure Certificate where
  raw : List Nat
  subject : String
  deriving DecidableEq

/-- A PEM block as produced by `pem.Decode`: type label, headers, body bytes. -/
structure PEMBlock where
  type : String
  headers : List (String × String)
  bytes : List Nat
  deriving DecidableEq

/-- The `certID` struct of roots_gen.go: a (name, fingerprint) pair parsed
from the remote document. -/
structure certID where
  name : String
  fingerprint : String
  deriving DecidableEq

/-- Outcome of `fetchCertIDs`: normal return of the id list, a returned Go
`error` (only ever produced by the transport), or a Go runtime panic. -/
inductive FetchOutcome where
  | ok (ids : List certID)
  | err (e : String)
  | panicked
  deriving DecidableEq

/-- Outcome of `selectCerts`: the selected certificates plus the
warning lines printed for unmatched entries, a returned error, or a panic. -/
inductive SelectOutcome where
  | ok (certs : List Certificate) (warnings : List String)
  | err (e : String)
  | panicked
  deriving DecidableEq

/-- Outcome of `main`: `log.Fatal` with a message (non-zero exit, no file
written), a runtime panic (ditto), or a successful write of the formatted
artifact. -/
inductive MainOutcome where
  | fatal (msg : String)
  | panicked
  | wrote (content : String)
  deriving DecidableEq

/-- `strings.Index`: position of the first occurrence of `pat` in `s`
(`none` models Go's `-1`). -/
def strIndex (pat : List Char) : List Char → Option Nat
  | [] => if pat.isPrefixOf ([] : List Char) then some 0 else none
  | c :: rest =>
    if pat.isPrefixOf (c :: rest) then some 0
    else (strIndex pat rest).map (· + 1)

/-- Split `s` at the first occurrence of `pat`: the part strictly before the
occurrence and the part strictly after it.  `none` when `pat` does not occur. -/
def splitFirst (pat : List Char) : List Char → Option (List Char × List Char)
  | [] => if pat.isPrefixOf ([] : List Char) then some ([], []) else none
  | c :: rest =>
    if pat.isPrefixOf (c :: rest) then some ([], (c :: rest).drop pat.length)
    else
      match splitFirst pat rest with
      | none => none
      | some (pre, suf) => some (c :: pre, suf)

/-- One step per extracted match; the consumed fuel bounds the number of
matches (each match consumes at least the two tags, so `s.length` fuel is
always enough). -/
def findAllBetweenAux (opTag clTag : List Char) : Nat → List Char → List (List Char)
  | 0, _ => []
  | fuel + 1, s =>
    match splitFirst opTag s with
    | none => []
    | some (_, afterOpen) =>
      match splitFirst clTag afterOpen with
      | none => []
      | some (mid, rest) => mid :: findAllBetweenAux opTag clTag fuel rest

/-- `regexp.MustCompile("(?s)" ++ opTag ++ "(.*?)" ++ clTag).FindAllStringSubmatch`:
all captured groups, left to right, non-greedy, continuing after each match. -/
def findAllBetween (opTag clTag : List Char) (s : List Char) : List (List Char) :=
  findAllBetweenAux opTag clTag s.length s

/-- One scanning step of `strings.ReplaceAll` per unit of fuel; every step
consumes at least one character, so `s.length` fuel is always enough. -/
def replaceAllAux (pat rep : List Char) : Nat → List Char → List Char
  | _, [] => []
  | 0, s => s
  | fuel + 1, c :: rest =>
    if 0 < pat.length ∧ pat.isPrefixOf (c :: rest) then
      rep ++ replaceAllAux pat rep fuel (rest.drop (pat.length - 1))
    else
      c :: replaceAllAux pat rep fuel rest

/-- `strings.ReplaceAll s pat rep` for a nonempty `pat` (every use below has a
nonempty pattern): replace non-overlapping occurrences left to right. -/
def replaceAll (pat rep s : List Char) : List Char :=
  replaceAllAux pat rep s.length s

/-- The anchor `<div id="trusted"` that `fetchCertIDs` searches for. -/
def anchorChars : List Char := "<div id=\"trusted\"".data

def divCloseChars : List Char := "</div>".data

def trOpen : List Char := "<tr>".data

def trClose : List Char := "</tr>".data

def thOpen : List Char := "<th>".data

def thClose : List Char := "</th>".data

def tdOpen : List Char := "<td>".data

def tdClose : List Char := "</td>".data

def nameLabel : List Char := "Certificate name".data

def fpLabel : List Char := "Fingerprint (SHA-256)".data

/-- The header-row loop `for i, match := range ... { cols[match[1]] = i }`:
later assignments to the same label win, realised by consing and first-hit
lookup. -/
def buildColsAux (i : Nat) : List (List Char) → List (List Char × Nat) → List (List Char × Nat)
  | [], m => m
  | lbl :: rest, m => buildColsAux (i + 1) rest ((lbl, i) :: m)

def buildCols (hs : List (List Char)) : List (List Char × Nat) :=
  buildColsAux 0 hs []

/-- `cols[label]` on a Go map: the mapped index, or the zero value 0 when the
label is absent. -/
def colIndex (cols : List (List Char × Nat)) (lbl : List Char) : Nat :=
  (cols.lookup lbl).getD 0

/-- Name normalization: `strings.ReplaceAll(name, "&nbsp;", "")`. -/
def normalizeName (s : List Char) : List Char :=
  replaceAll "&nbsp;".data [] s

/-- Fingerprint normalization: remove `<br>`, newlines, spaces and `&nbsp;`,
then lower-case. -/
def normalizeFingerprint (s : List Char) : List Char :=
  List.map Char.toLower
    (replaceAll "&nbsp;".data []
      (replaceAll " ".data []
        (replaceAll "\n".data []
          (replaceAll "<br>".data [] s))))

/-- The per-row loop body of `fetchCertIDs` over the data rows (everything
after the header row).  `values[cols[...]]` with an out-of-range index is a Go
runtime panic. -/
def processRows (cols : List (List Char × Nat)) : List (List Char) → FetchOutcome
  | [] => FetchOutcome.ok []
  | row :: rest =>
    let values := findAllBetween tdOpen tdClose row
    let nameIdx := colIndex cols nameLabel
    let fpIdx := colIndex cols fpLabel
    if h1 : nameIdx < values.length then
      if h2 : fpIdx < values.length then
        let nm := normalizeName values[nameIdx]
        let fp := normalizeFingerprint values[fpIdx]
        match processRows cols rest with
        | FetchOutcome.ok ids => FetchOutcome.ok (⟨String.mk nm, String.mk fp⟩ :: ids)
        | o => o
      else FetchOutcome.panicked
    else FetchOutcome.panicked

/-- The table-extraction loop of `fetchCertIDs` over the anchored section:
row 0 builds the column map from its `<th>` cells, the remaining rows are
data rows. -/
def processSection (text : List Char) : FetchOutcome :=
  match findAllBetween trOpen trClose text with
  | [] => FetchOutcome.ok []
  | row0 :: rest => processRows (buildCols (findAllBetween thOpen thClose row0)) rest

/-- The document processing of `fetchCertIDs` given the response body:
`text[idx:]` with `idx = strings.Index(...) = -1` and `text[:j]` with `j = -1`
are Go runtime panics (slice bounds out of range). -/
def processBody (body : String) : FetchOutcome :=
  match strIndex anchorChars body.data with
  | none => FetchOutcome.panicked
  | some idx =>
    match strIndex divCloseChars (body.data.drop idx) with
    | none => FetchOutcome.panicked
    | some j => processSection ((body.data.drop idx).take j)

/-- `fetchCertIDs`, with the HTTP transport as a parameter: a transport
failure is the only returned error; a retrieved body is processed by
`processBody`. -/
def fetchCertIDs (httpRes : Except String String) : FetchOutcome :=
  match httpRes with
  | Except.error e => FetchOutcome.err e
  | Except.ok body => processBody body

/-- One iteration of the PEM-scanning loop of `sysCerts`: blocks whose type
is not `CERTIFICATE` or that carry headers are skipped; blocks that fail to
parse as X.509 are skipped; a parsed certificate is inserted into the map
under its hex-encoded SHA-256 fingerprint (last write wins). -/
def sysCertsStep (fp : List Nat → String) (parseCert : List Nat → Option Certificate)
    (m : List (String × Certificate)) (b : PEMBlock) : List (String × Certificate) :=
  if b.type = "CERTIFICATE" ∧ b.headers = [] then
    match parseCert b.bytes with
    | some cert => (fp cert.raw, cert) :: m
    | none => m
  else m

/-- `sysCerts` given the stream of PEM blocks produced by decoding the
output of the `security` export command.  `fp` models
`hex.EncodeToString(sha256.Sum256(raw))` and `parseCert` models
`x509.ParseCertificate`. -/
def sysCerts (fp : List Nat → String) (parseCert : List Nat → Option Certificate)
    (blocks : List PEMBlock) : List (String × Certificate) :=
  blocks.foldl (sysCertsStep fp parseCert) []

/-- The warning printed by `selectCerts` for a remote entry with no local
match. -/
def warnMsg (id : certID) : String :=
  "WARNING: cannot find certificate: " ++ id.name ++ " (fingerprint: " ++ id.fingerprint ++ ")\n"

/-- The reconciliation loop of `selectCerts`: for each remote id in order,
append the matching local certificate on a fingerprint hit, or record a
warning on a miss. -/
def reconcile (index : List (String × Certificate)) : List certID → List Certificate × List String
  | [] => ([], [])
  | id :: rest =>
    match index.lookup id.fingerprint with
    | some c =>
      let r := reconcile index rest
      (c :: r.1, r.2)
    | none =>
      let r := reconcile index rest
      (r.1, warnMsg id :: r.2)

/-- `selectCerts`: fetch the remote ids, build the local fingerprint index,
and reconcile, propagating errors and panics. -/
def selectCerts (fp : List Nat → String) (parseCert : List Nat → Option Certificate)
    (httpRes : Except String String) (sysRes : Except String (List PEMBlock)) :
    SelectOutcome :=
  match fetchCertIDs httpRes with
  | FetchOutcome.err e => SelectOutcome.err e
  | FetchOutcome.panicked => SelectOutcome.panicked
  | FetchOutcome.ok ids =>
    match sysRes with
    | Except.error e => SelectOutcome.err e
    | Except.ok blocks =>
      let r := reconcile (sysCerts fp parseCert blocks) ids
      SelectOutcome.ok r.1 r.2

/-- The `allowedCAs` map of roots_gen.go, as the association list of its
entries (all values are `true`). -/
def allowedCAs : List (String × Bool) :=
  [ ("CN=AddTrust Class 1 CA Root,OU=AddTrust TTP Network,O=AddTrust AB,C=SE", true),
    ("CN=AddTrust External CA Root,OU=AddTrust External TTP Network,O=AddTrust AB,C=SE", true),
    ("CN=COMODO Certification Authority,O=COMODO CA Limited,L=Salford,ST=Greater Manchester,C=GB", true),
    ("CN=COMODO ECC Certification Authority,O=COMODO CA Limited,L=Salford,ST=Greater Manchester,C=GB", true),
    ("CN=COMODO RSA Certification Authority,O=COMODO CA Limited,L=Salford,ST=Greater Manchester,C=GB", true),
    ("CN=DigiCert Global Root CA,OU=www.digicert.com,O=DigiCert Inc,C=US", true),
    ("CN=DigiCert Global Root G2,OU=www.digicert.com,O=DigiCert Inc,C=US", true),
    ("CN=DigiCert Global Root G3,OU=www.digicert.com,O=DigiCert Inc,C=US", true),
    ("CN=DigiCert High Assurance EV Root CA,OU=www.digicert.com,O=DigiCert Inc,C=US", true),
    ("CN=DigiCert Trusted Root G4,OU=www.digicert.com,O=DigiCert Inc,C=US", true),
    ("CN=DST Root CA X3,O=Digital Signature Trust Co.", true),
    ("CN=DST Root CA X4,O=Digital Signature Trust Co.", true),
    ("CN=ISRG Root X1,O=Internet Security Research Group,C=US", true),
    ("CN=GlobalSign Root CA,OU=Root CA,O=GlobalSign nv-sa,C=BE", true),
    ("CN=GlobalSign,OU=GlobalSign ECC Root CA - R4,O=GlobalSign", true),
    ("CN=GlobalSign,OU=GlobalSign ECC Root CA - R5,O=GlobalSign", true),
    ("CN=GlobalSign,OU=GlobalSign Root CA - R2,O=GlobalSign", true),
    ("CN=GlobalSign,OU=GlobalSign Root CA - R3,O=GlobalSign", true),
    ("OU=Go Daddy Class 2 Certification Authority,O=The Go Daddy Group\\, Inc.,C=US", true),
    ("CN=Go Daddy Root Certificate Authority - G2,O=GoDaddy.com\\, Inc.,L=Scottsdale,ST=Arizona,C=US", true) ]

/-- The subject allow-list filter applied by the emission loop of `main`:
keep exactly the certificates whose subject string is a key of `allowedCAs`. -/
def filterAllowed (certs : List Certificate) : List Certificate :=
  certs.filter (fun c => (allowedCAs.lookup c.subject).isSome)

/-- The emission loop of `main` over the reconciled certificates: for each
allowed certificate append its PEM encoding to the buffer.  `pemEnc` models
`pem.Encode` of a `CERTIFICATE` block with the given raw bytes. -/
def emitCerts (pemEnc : List Nat → String) (certs : List Certificate) : String :=
  certs.foldl
    (fun buf c => if (allowedCAs.lookup c.subject).isSome then buf ++ pemEnc c.raw else buf) ""

/-- The `header` constant of roots_gen.go. -/
def header : String := "\npackage mobile\n\n"

/-- The first `Fprintf` of `main`: the generated-file marker line with the
configured output path interpolated. -/
def genLine (out : String) : String :=
  "// Code generated by roots_gen --output " ++ out ++ "; DO NOT EDIT.\n"

/-- The buffer assembled by `main` before formatting: marker line, header,
and the `systemRootsPEM` string literal holding the concatenated PEM blocks. -/
def emitBuffer (pemEnc : List Nat → String) (out : String) (certs : List Certificate) : String :=
  genLine out ++ header ++ "const systemRootsPEM = `\n" ++ emitCerts pemEnc certs ++ "`"

/-- `main`, with the external collaborators as parameters: `fmtSrc` models
`format.Source`; the artifact is written only after the whole buffer has been
assembled and formatted. -/
def runMain (fp : List Nat → String) (parseCert : List Nat → Option Certificate)
    (pemEnc : List Nat → String) (fmtSrc : String → Except String String)
    (httpRes : Except String String) (sysRes : Except String (List PEMBlock))
    (out : String) : MainOutcome :=
  match selectCerts fp parseCert httpRes sysRes with
  | SelectOutcome.err e => MainOutcome.fatal e
  | SelectOutcome.panicked => MainOutcome.panicked
  | SelectOutcome.ok certs _ =>
    match fmtSrc (emitBuffer pemEnc out certs) with
    | Except.error e => MainOutcome.fatal ("source format error:" ++ e)
    | Except.ok source => MainOutcome.wrote source

/-- The first line of a string artifact (up to the first newline). -/
def firstLine (s : String) : String :=
  String.mk (s.data.takeWhile (fun c => c != '\n'))

/-- Concrete fingerprint function for witnesses. -/
def fpW : List Nat → String :=
  fun raw => if raw = [0] then "aa" else "bb"

/-- Concrete certificate parser for witnesses: byte list `[0]` parses to
`certA`, byte list `[2]` to `certB`, everything else is malformed. -/
def certA : Certificate := ⟨[0], "SubjA"⟩

def certB : Certificate := ⟨[2], "SubjB"⟩

def parseW : List Nat → Option Certificate :=
  fun bs => if bs = [0] then some certA else if bs = [2] then some certB else none

/-- Concrete PEM encoder for witnesses. -/
def pemEncW : List Nat → String := fun _ => "PEM\n"

/-- Concrete source formatter for witnesses. -/
def fmtSrcW : String → Except String String := fun s => Except.ok s

theorem lookup_mem_of_some {α β : Type} [BEq α] [LawfulBEq α] {m : List (α × β)} {k : α} {v : β}
    (h : m.lookup k = some v) : (k, v) ∈ m := by
  induction m with
  | nil => simp [ List.lookup] at h
  | cons p rest ih =>
    obtain ⟨a, b⟩ := p
    rw [ List.lookup] at h
    by_cases hk : k == a
    · simp [hk] at h
      simp [eq_of_beq hk, h]
    · simp [hk] at h
      exact List.mem_cons_of_mem _ (ih h)

theorem isPrefixOf_iff_append {pat s : List Char} :
    pat.isPrefixOf s = true ↔ ∃ t, pat ++ t = s := by
  rw [ List.isPrefixOf_iff_prefix]
  exact Iff.rfl

theorem strIndex_eq_none_iff (pat : List Char) (s : List Char) :
    strIndex pat s = none ↔ ¬ ∃ pre suf, s = pre ++ pat ++ suf := by
  induction s with
  | nil =>
    rw [strIndex]
    cases pat with
    | nil =>
      simp
    | cons a l =>
      have h : (a :: l).isPrefixOf ([] : List Char) = false := rfl
      simp [h]
  | cons c rest ih =>
    rw [strIndex]
    by_cases h : pat.isPrefixOf (c :: rest)
    · rw [if_pos h]
      rw [isPrefixOf_iff_append] at h
      obtain ⟨t, ht⟩ := h
      constructor
      · intro hc
        exact absurd hc (by simp)
      · intro hno
        exact absurd ⟨[], t, by rw [ List.nil_append, ht]⟩ hno
    · rw [if_neg h]
      constructor
      · intro hmap
        have h1 : strIndex pat rest = none := by
          cases hs : strIndex pat rest with
          | none => rfl
          | some n => rw [hs] at hmap; simp at hmap
        rintro ⟨pre, suf, heq⟩
        cases pre with
        | nil =>
          apply h
          rw [isPrefixOf_iff_append]
          simp at heq
          exact ⟨suf, heq.symm⟩
        | cons a l =>
          simp at heq
          exact (ih.mp h1) ⟨l, suf, by rw [ List.append_assoc]; exact heq.2⟩
      · intro hno
        have h1 : ¬ ∃ pre suf, rest = pre ++ pat ++ suf := by
          rintro ⟨pre, suf, heq⟩
          exact hno ⟨c :: pre, suf, by simp [heq]⟩
        simp [ih.mpr h1]

theorem sysCertsStep_skip (fp : List Nat → String) (parseCert : List Nat → Option Certificate)
    (m : List (String × Certificate)) (b : PEMBlock)
    (hb : ¬ (b.type = "CERTIFICATE" ∧ b.headers = [] ∧ (parseCert b.bytes).isSome)) :
    sysCertsStep fp parseCert m b = m := by
  rw [sysCertsStep]
  by_cases h1 : b.type = "CERTIFICATE" ∧ b.headers = []
  · rw [if_pos h1]
    cases hp : parseCert b.bytes with
    | none => rfl
    | some c =>
      exact absurd ⟨h1.1, h1.2, by rw [hp]; rfl⟩ hb
  · rw [if_neg h1]

theorem sysCerts_foldl_entry_key (fp : List Nat → String) (parseCert : List Nat → Option Certificate)
    (blocks : List PEMBlock) (m : List (String × Certificate))
    (hm : ∀ p ∈ m, p.1 = fp p.2.raw) :
    ∀ p ∈ blocks.foldl (sysCertsStep fp parseCert) m, p.1 = fp p.2.raw := by
  induction blocks generalizing m with
  | nil => exact hm
  | cons b rest ih =>
    intro p hp
    refine ih (sysCertsStep fp parseCert m b) ?_ p hp
    intro q hq
    rw [sysCertsStep] at hq
    by_cases h1 : q.1 = fp q.2.raw
    · exact h1
    · split at hq
      · cases hpc : parseCert b.bytes with
        | none => rw [hpc] at hq; exact hm q hq
        | some c =>
          rw [hpc] at hq
          rcases List.mem_cons.mp hq with h2 | h2
          · rw [h2]
          · exact hm q h2
      · exact hm q hq

theorem sysCerts_foldl_lookup_mono (fp : List Nat → String) (parseCert : List Nat → Option Certificate)
    (blocks : List PEMBlock) (m : List (String × Certificate)) (k : String)
    (hk : (m.lookup k).isSome = true) :
    ((blocks.foldl (sysCertsStep fp parseCert) m).lookup k).isSome = true := by
  induction blocks generalizing m with
  | nil => exact hk
  | cons b rest ih =>
    refine ih (sysCertsStep fp parseCert m b) ?_
    rw [sysCertsStep]
    split
    · cases hpc : parseCert b.bytes with
      | none => exact hk
      | some c =>
        rw [ List.lookup]
        by_cases hkk : k == fp c.raw
        · simp [hkk]
        · simp only [hkk]
          exact hk
    · exact hk

theorem sysCerts_foldl_lookup_isSome (fp : List Nat → String) (parseCert : List Nat → Option Certificate)
    (blocks : List PEMBlock) (m : List (String × Certificate)) (b : PEMBlock) (c : Certificate)
    (hmem : b ∈ blocks) (ht : b.type = "CERTIFICATE") (hh : b.headers = [])
    (hp : parseCert b.bytes = some c) :
    (((blocks.foldl (sysCertsStep fp parseCert) m)).lookup (fp c.raw)).isSome = true := by
  induction blocks generalizing m with
  | nil => cases hmem
  | cons b0 rest ih =>
    rcases List.mem_cons.mp hmem with hb | hb
    · subst hb
      rw [ List.foldl_cons]
      apply sysCerts_foldl_lookup_mono
      have hstep : sysCertsStep fp parseCert m b = (fp c.raw, c) :: m := by
        rw [sysCertsStep, if_pos ⟨ht, hh⟩, hp]
      rw [hstep, List.lookup]
      simp
    · exact ih _ hb

theorem reconcile_certs_eq (index : List (String × Certificate)) (ids : List certID) :
    (reconcile index ids).1 = ids.filterMap (fun id => index.lookup id.fingerprint) := by
  induction ids with
  | nil => rfl
  | cons id rest ih =>
    rw [reconcile, List.filterMap_cons]
    cases h : index.lookup id.fingerprint with
    | none => simpa using ih
    | some c => simpa using ih

theorem reconcile_warns_eq (index : List (String × Certificate)) (ids : List certID) :
    (reconcile index ids).2 =
      (ids.filter (fun id => (index.lookup id.fingerprint).isNone)).map warnMsg := by
  induction ids with
  | nil => rfl
  | cons id rest ih =>
    rw [reconcile, List.filter_cons]
    cases h : index.lookup id.fingerprint with
    | none => simpa using ih
    | some c => simpa using ih

theorem reconcile_fst_map_fp (fp : List Nat → String) (index : List (String × Certificate))
    (ids : List certID) (hwf : ∀ p ∈ index, p.1 = fp p.2.raw) :
    (reconcile index ids).1.map (fun c => fp c.raw) =
      (ids.filter (fun id => (index.lookup id.fingerprint).isSome)).map certID.fingerprint := by
  induction ids with
  | nil => rfl
  | cons id rest ih =>
    rw [reconcile, List.filter_cons]
    cases h : index.lookup id.fingerprint with
    | none => simpa using ih
    | some c =>
      have hk : fp c.raw = id.fingerprint := (hwf _ (lookup_mem_of_some h)).symm
      simpa [hk] using ih

theorem buildColsAux_lookup_notMem (hs : List (List Char)) (lbl : List Char) (i : Nat)
    (m : List (List Char × Nat)) (hlbl : lbl ∉ hs) :
    (buildColsAux i hs m).lookup lbl = m.lookup lbl := by
  induction hs generalizing i m with
  | nil => rfl
  | cons h0 rest ih =>
    rw [buildColsAux]
    have hne : lbl ∉ rest := fun hmm => hlbl (List.mem_cons_of_mem _ hmm)
    rw [ih _ _ hne, List.lookup]
    have : (lbl == h0) = false := by
      simp only [beq_eq_false_iff_ne, ne_eq]
      intro hq
      exact hlbl (hq ▸ List.mem_cons_self _ _)
    rw [this]

theorem colIndex_eq_zero_of_notMem (hs : List (List Char)) (lbl : List Char) (hlbl : lbl ∉ hs) :
    colIndex (buildCols hs) lbl = 0 := by
  rw [colIndex, buildCols, buildColsAux_lookup_notMem _ _ _ _ hlbl]
  rfl

theorem processRows_ok_of_lt (cols : List (List Char × Nat)) (rows : List (List Char))
    (h : ∀ r ∈ rows, colIndex cols nameLabel < (findAllBetween tdOpen tdClose r).length ∧
                     colIndex cols fpLabel < (findAllBetween tdOpen tdClose r).length) :
    ∃ ids, processRows cols rows = FetchOutcome.ok ids ∧ ids.length = rows.length := by
  induction rows with
  | nil => exact ⟨[], rfl, rfl⟩
  | cons row rest ih =>
    have hrow := h row (List.mem_cons_self _ _)
    obtain ⟨ids, hok, hlen⟩ := ih (fun r hr => h r (List.mem_cons_of_mem _ hr))
    simp only [processRows, dif_pos hrow.1, dif_pos hrow.2, hok]
    exact ⟨_, rfl, by simp [hlen]⟩

theorem processRows_panic_of_short (cols : List (List Char × Nat)) (rows : List (List Char))
    (h : ∃ r ∈ rows, (findAllBetween tdOpen tdClose r).length ≤ colIndex cols nameLabel ∨
                     (findAllBetween tdOpen tdClose r).length ≤ colIndex cols fpLabel) :
    processRows cols rows = FetchOutcome.panicked := by
  induction rows with
  | nil => simp at h
  | cons row rest ih =>
    rw [processRows]
    by_cases h1 : colIndex cols nameLabel < (findAllBetween tdOpen tdClose row).length
    · rw [dif_pos h1]
      by_cases h2 : colIndex cols fpLabel < (findAllBetween tdOpen tdClose row).length
      · rw [dif_pos h2]
        have htail : ∃ r ∈ rest,
            (findAllBetween tdOpen tdClose r).length ≤ colIndex cols nameLabel ∨
            (findAllBetween tdOpen tdClose r).length ≤ colIndex cols fpLabel := by
          obtain ⟨r, hr, hcase⟩ := h
          rcases List.mem_cons.mp hr with hhd | htl
          · subst hhd
            rcases hcase with hc | hc
            · omega
            · omega
          · exact ⟨r, htl, hcase⟩
        rw [ih htail]
      · rw [dif_neg h2]
    · rw [dif_neg h1]

theorem takeWhile_append_all {p : Char → Bool} {l1 l2 : List Char} (h : ∀ c ∈ l1, p c = true) :
    (l1 ++ l2).takeWhile p = l1 ++ l2.takeWhile p := by
  induction l1 with
  | nil => rfl
  | cons c rest ih =>
    rw [ List.cons_append, List.takeWhile_cons, if_pos (h c (List.mem_cons_self _ _)),
      ih (fun x hx => h x (List.mem_cons_of_mem _ hx)), List.cons_append]

theorem emitCerts_foldl_filter (pemEnc : List Nat → String) (certs : List Certificate)
    (buf : String) :
    (filterAllowed certs).foldl
        (fun b c => if (allowedCAs.lookup c.subject).isSome then b ++ pemEnc c.raw else b) buf =
      certs.foldl
        (fun b c => if (allowedCAs.lookup c.subject).isSome then b ++ pemEnc c.raw else b) buf := by
  induction certs generalizing buf with
  | nil => rfl
  | cons c rest ih =>
    rw [filterAllowed, List.filter_cons]
    by_cases hc : (allowedCAs.lookup c.subject).isSome
    · rw [if_pos hc]
      rw [ List.foldl_cons, List.foldl_cons, if_pos hc]
      exact ih _
    · rw [if_neg hc]
      rw [ List.foldl_cons, if_neg hc]
      exact ih _

theorem emitCerts_filterAllowed (pemEnc : List Nat → String) (certs : List Certificate) :
    emitCerts pemEnc (filterAllowed certs) = emitCerts pemEnc certs := by
  rw [emitCerts, emitCerts]
  exact emitCerts_foldl_filter pemEnc certs ""

/-- Claim C1, counterexample: on a body lacking the anchor, `fetchCertIDs`
panics; it does not return the claimed ParseError. -/
theorem c1_counterexample :
    fetchCertIDs (Except.ok "<html><body>no anchor</body></html>") = FetchOutcome.panicked ∧
    fetchCertIDs (Except.ok "<html><body>no anchor</body></html>") ≠
      FetchOutcome.err "expected section not found" := by
  exact ⟨by decide, by decide⟩

/-- Claim C1 (amended): for every document body lacking the anchor, the
program aborts by a runtime panic (slice bound violation), not by a returned
error, before any output can be written. -/
theorem c1_missing_anchor_aborts (body : String)
    (h : ¬ ∃ pre suf, body.data = pre ++ anchorChars ++ suf) :
    fetchCertIDs (Except.ok body) = FetchOutcome.panicked ∧
    ∀ fp parseCert pemEnc fmtSrc sysRes out,
      runMain fp parseCert pemEnc fmtSrc (Except.ok body) sysRes out = MainOutcome.panicked := by
  have hidx : strIndex anchorChars body.data = none := (strIndex_eq_none_iff _ _).mpr h
  have hfetch : fetchCertIDs (Except.ok body) = FetchOutcome.panicked := by
    rw [fetchCertIDs, processBody, hidx]
  refine ⟨hfetch, ?_⟩
  intro fp parseCert pemEnc fmtSrc sysRes out
  rw [runMain, selectCerts, hfetch]

theorem c1_missing_anchor_aborts_w :
    fetchCertIDs (Except.ok "<p>hi</p>") = FetchOutcome.panicked :=
  (c1_missing_anchor_aborts "<p>hi</p>" ((strIndex_eq_none_iff _ _).mp (by decide))).1

/-- Claim C2, counterexample: a table whose header lacks both expected labels
is extracted successfully from column 0; no error is reported. -/
theorem c2_counterexample :
    fetchCertIDs
        (Except.ok "<div id=\"trusted\"><tr><th>Foo</th></tr><tr><td>AB</td></tr></div>") =
      FetchOutcome.ok [⟨"AB", "ab"⟩] := by
  decide

/-- Claim C2 (amended): a missing column label makes the Go map lookup return
the zero value 0, so extraction silently uses column 0. -/
theorem c2_missing_labels_fallback (hs : List (List Char)) (rows : List (List Char))
    (hname : nameLabel ∉ hs) (hfp : fpLabel ∉ hs)
    (hcells : ∀ r ∈ rows, 0 < (findAllBetween tdOpen tdClose r).length) :
    colIndex (buildCols hs) nameLabel = 0 ∧ colIndex (buildCols hs) fpLabel = 0 ∧
    ∃ ids, processRows (buildCols hs) rows = FetchOutcome.ok ids ∧ ids.length = rows.length := by
  have h1 := colIndex_eq_zero_of_notMem hs nameLabel hname
  have h2 := colIndex_eq_zero_of_notMem hs fpLabel hfp
  refine ⟨h1, h2, processRows_ok_of_lt _ _ ?_⟩
  intro r hr
  rw [h1, h2]
  exact ⟨hcells r hr, hcells r hr⟩

theorem c2_missing_labels_fallback_w :
    colIndex (buildCols [ "Foo".data]) nameLabel = 0 :=
  (c2_missing_labels_fallback [ "Foo".data] [ "<td>AB</td>".data]
    (by decide) (by decide) (by decide)).1

/-- Claim C3, counterexample: a remote list repeating one fingerprint yields
the same certificate twice in the reconciled bundle. -/
theorem c3_counterexample :
    (reconcile [("aa", certA)] [⟨"X", "aa"⟩, ⟨"Y", "aa"⟩]).1 = [certA, certA] ∧
    ¬ ((reconcile [("aa", certA)] [⟨"X", "aa"⟩, ⟨"Y", "aa"⟩]).1.map
        (fun c => fpW c.raw)).Nodup := by
  exact ⟨by decide, by decide⟩

/-- Claim C3 (amended): when the remote entries carry pairwise-distinct
fingerprints and the index maps each fingerprint key to a certificate with
that fingerprint, the bundle has no duplicate fingerprints. -/
theorem c3_reconcile_nodup (fp : List Nat → String) (index : List (String × Certificate))
    (ids : List certID) (hwf : ∀ p ∈ index, p.1 = fp p.2.raw)
    (hids : (ids.map certID.fingerprint).Nodup) :
    ((reconcile index ids).1.map (fun c => fp c.raw)).Nodup := by
  rw [reconcile_fst_map_fp fp index ids hwf]
  exact List.Nodup.sublist (List.Sublist.map _ (List.filter_sublist ids)) hids

theorem c3_reconcile_nodup_w :
    ((reconcile [("aa", certA)] [⟨"X", "aa"⟩, ⟨"Y", "bb"⟩]).1.map (fun c => fpW c.raw)).Nodup :=
  c3_reconcile_nodup fpW [("aa", certA)] [⟨"X", "aa"⟩, ⟨"Y", "bb"⟩] (by decide) (by decide)

/-- Claim C4: the reconciler is total and each entry yields exactly one of a
matched certificate or a warning naming it. -/
theorem c4_reconcile_accounting (index : List (String × Certificate)) (ids : List certID) :
    (reconcile index ids).1.length + (reconcile index ids).2.length = ids.length ∧
    (reconcile index ids).1 = ids.filterMap (fun id => index.lookup id.fingerprint) ∧
    (reconcile index ids).2 =
      (ids.filter (fun id => (index.lookup id.fingerprint).isNone)).map warnMsg := by
  refine ⟨?_, reconcile_certs_eq index ids, reconcile_warns_eq index ids⟩
  induction ids with
  | nil => rfl
  | cons id rest ih =>
    rw [reconcile]
    cases h : index.lookup id.fingerprint with
    | none =>
      simp only [ List.length_cons]
      omega
    | some c =>
      simp only [ List.length_cons]
      omega

theorem c4_reconcile_accounting_w :
    (reconcile [("aa", certA)] [⟨"X", "aa"⟩, ⟨"Y", "bb"⟩]).1.length +
      (reconcile [("aa", certA)] [⟨"X", "aa"⟩, ⟨"Y", "bb"⟩]).2.length = 2 :=
  (c4_reconcile_accounting [("aa", certA)] [⟨"X", "aa"⟩, ⟨"Y", "bb"⟩]).1

/-- Claim C5: the index builder is total; a block that is not a bare valid
certificate is skipped without affecting the result, and every valid
certificate's fingerprint is present in the index, bound to a certificate
with that fingerprint. -/
theorem c5_sysCerts_tolerant (fp : List Nat → String) (parseCert : List Nat → Option Certificate)
    (pre post : List PEMBlock) (bad : PEMBlock)
    (hbad : ¬ (bad.type = "CERTIFICATE" ∧ bad.headers = [] ∧ (parseCert bad.bytes).isSome)) :
    sysCerts fp parseCert (pre ++ bad :: post) = sysCerts fp parseCert (pre ++ post) ∧
    ∀ b ∈ pre ++ post, b.type = "CERTIFICATE" → b.headers = [] →
      ∀ c, parseCert b.bytes = some c →
        ∃ c', (sysCerts fp parseCert (pre ++ bad :: post)).lookup (fp c.raw) = some c' ∧
          fp c'.raw = fp c.raw := by
  have hskip : sysCerts fp parseCert (pre ++ bad :: post) = sysCerts fp parseCert (pre ++ post) := by
    rw [sysCerts, sysCerts, List.foldl_append, List.foldl_append, List.foldl_cons,
      sysCertsStep_skip fp parseCert _ bad hbad]
  refine ⟨hskip, ?_⟩
  intro b hb ht hh c hp
  rw [hskip, sysCerts]
  have hsome := sysCerts_foldl_lookup_isSome fp parseCert (pre ++ post) [] b c hb ht hh hp
  cases hlk : ((pre ++ post).foldl (sysCertsStep fp parseCert) []).lookup (fp c.raw) with
  | none => rw [hlk] at hsome; simp at hsome
  | some c' =>
    refine ⟨c', rfl, ?_⟩
    have hkey := sysCerts_foldl_entry_key fp parseCert (pre ++ post) []
      (by intro p hp0; cases hp0) (fp c.raw, c') (lookup_mem_of_some hlk)
    exact hkey.symm

theorem c5_sysCerts_tolerant_w :
    sysCerts fpW parseW
        [⟨"CERTIFICATE", [], [0]⟩, ⟨"CERTIFICATE", [], [9]⟩, ⟨"CERTIFICATE", [], [2]⟩] =
      sysCerts fpW parseW [⟨"CERTIFICATE", [], [0]⟩, ⟨"CERTIFICATE", [], [2]⟩] :=
  (c5_sysCerts_tolerant fpW parseW [⟨"CERTIFICATE", [], [0]⟩] [⟨"CERTIFICATE", [], [2]⟩]
    ⟨"CERTIFICATE", [], [9]⟩ (by decide)).1

/-- Claim C6: a data row with fewer cells than an indexed column position
makes the whole extraction panic; the row is not skipped. -/
theorem c6_short_row_fatal (text : List Char) (row0 : List Char) (rows : List (List Char))
    (hrows : findAllBetween trOpen trClose text = row0 :: rows)
    (h : ∃ r ∈ rows,
        (findAllBetween tdOpen tdClose r).length ≤
            colIndex (buildCols (findAllBetween thOpen thClose row0)) nameLabel ∨
        (findAllBetween tdOpen tdClose r).length ≤
            colIndex (buildCols (findAllBetween thOpen thClose row0)) fpLabel) :
    processSection text = FetchOutcome.panicked := by
  rw [processSection, hrows]
  exact processRows_panic_of_short _ _ h

theorem c6_short_row_fatal_w :
    processSection "<tr>h</tr><tr>x</tr>".data = FetchOutcome.panicked :=
  c6_short_row_fatal _ "h".data [ "x".data] (by decide) (by decide)

/-- Claim C7: the allow-list filter is the order-preserving subsequence of
exact allow-list members, it is idempotent, and it agrees with the emission
loop's inline filtering. -/
theorem c7_filterAllowed_spec (l : List Certificate) :
    List.Sublist (filterAllowed l) l ∧
    (∀ c, c ∈ filterAllowed l ↔ c ∈ l ∧ (allowedCAs.lookup c.subject).isSome = true) ∧
    filterAllowed (filterAllowed l) = filterAllowed l ∧
    ∀ pemEnc, emitCerts pemEnc (filterAllowed l) = emitCerts pemEnc l := by
  refine ⟨ List.filter_sublist l, fun c => List.mem_filter, ?_,
    fun pemEnc => emitCerts_filterAllowed pemEnc l⟩
  rw [filterAllowed, filterAllowed, List.filter_filter]
  simp

theorem c7_filterAllowed_spec_w :
    List.Sublist (filterAllowed [certA]) [certA] :=
  (c7_filterAllowed_spec [certA]).1

/-- Claim C8: the emitter and the whole pipeline are pure functions of their
inputs; equal inputs give byte-identical artifacts. -/
theorem c8_deterministic (fp : List Nat → String) (parseCert : List Nat → Option Certificate)
    (pemEnc : List Nat → String) (fmtSrc : String → Except String String) (out : String) :
    (∀ certs1 certs2 : List Certificate, certs1 = certs2 →
        emitBuffer pemEnc out certs1 = emitBuffer pemEnc out certs2) ∧
    (∀ http1 http2 : Except String String, ∀ sys1 sys2 : Except String (List PEMBlock),
        http1 = http2 → sys1 = sys2 →
        runMain fp parseCert pemEnc fmtSrc http1 sys1 out =
          runMain fp parseCert pemEnc fmtSrc http2 sys2 out) :=
  ⟨fun _ _ h => by rw [h], fun _ _ _ _ h1 h2 => by rw [h1, h2]⟩

theorem c8_deterministic_w :
    runMain fpW parseW pemEncW fmtSrcW (Except.ok "<p>x</p>") (Except.ok []) "roots_list.go" =
      runMain fpW parseW pemEncW fmtSrcW (Except.ok "<p>x</p>") (Except.ok []) "roots_list.go" :=
  (c8_deterministic fpW parseW pemEncW fmtSrcW "roots_list.go").2 _ _ _ _ rfl rfl

/-- Claim C9: every fatal path ends in a non-written outcome, and a written
artifact implies every stage succeeded and the content is the formatted
full buffer. -/
theorem c9_fatal_no_write (fp : List Nat → String) (parseCert : List Nat → Option Certificate)
    (pemEnc : List Nat → String) (fmtSrc : String → Except String String)
    (httpRes : Except String String) (sysRes : Except String (List PEMBlock)) (out : String) :
    (fetchCertIDs httpRes = FetchOutcome.panicked →
      runMain fp parseCert pemEnc fmtSrc httpRes sysRes out = MainOutcome.panicked) ∧
    (∀ e, fetchCertIDs httpRes = FetchOutcome.err e →
      runMain fp parseCert pemEnc fmtSrc httpRes sysRes out = MainOutcome.fatal e) ∧
    (∀ ids e, fetchCertIDs httpRes = FetchOutcome.ok ids → sysRes = Except.error e →
      runMain fp parseCert pemEnc fmtSrc httpRes sysRes out = MainOutcome.fatal e) ∧
    (∀ ids blocks e, fetchCertIDs httpRes = FetchOutcome.ok ids → sysRes = Except.ok blocks →
      fmtSrc (emitBuffer pemEnc out (reconcile (sysCerts fp parseCert blocks) ids).1) =
        Except.error e →
      runMain fp parseCert pemEnc fmtSrc httpRes sysRes out =
        MainOutcome.fatal ("source format error:" ++ e)) ∧
    (∀ s, runMain fp parseCert pemEnc fmtSrc httpRes sysRes out = MainOutcome.wrote s →
      ∃ ids blocks, fetchCertIDs httpRes = FetchOutcome.ok ids ∧ sysRes = Except.ok blocks ∧
        fmtSrc (emitBuffer pemEnc out (reconcile (sysCerts fp parseCert blocks) ids).1) =
          Except.ok s) := by
  refine ⟨?_, ?_, ?_, ?_, ?_⟩
  · intro h
    rw [runMain, selectCerts, h]
  · intro e h
    rw [runMain, selectCerts, h]
  · intro ids e h1 h2
    rw [runMain, selectCerts, h1, h2]
  · intro ids blocks e h1 h2 h3
    rw [runMain, selectCerts, h1, h2]
    simp only []
    rw [h3]
  · intro s h
    rw [runMain, selectCerts] at h
    cases hf : fetchCertIDs httpRes with
    | err e => rw [hf] at h; simp at h
    | panicked => rw [hf] at h; simp at h
    | ok ids =>
      rw [hf] at h
      simp only [] at h
      cases hsys : sysRes with
      | error e => rw [hsys] at h; simp at h
      | ok blocks =>
        rw [hsys] at h
        simp only [] at h
        cases hfmt : fmtSrc
            (emitBuffer pemEnc out (reconcile (sysCerts fp parseCert blocks) ids).1) with
        | error e => rw [hfmt] at h; simp at h
        | ok src =>
          rw [hfmt] at h
          simp at h
          exact ⟨ids, blocks, rfl, rfl, by rw [hfmt, h]⟩

theorem c9_fatal_no_write_w :
    runMain fpW parseW pemEncW fmtSrcW (Except.error "boom") (Except.ok []) "o" =
      MainOutcome.fatal "boom" :=
  (c9_fatal_no_write fpW parseW pemEncW fmtSrcW (Except.error "boom") (Except.ok []) "o").2.1
    "boom" rfl

/-- Claim C10: the marker line of the assembled artifact interpolates the
configured output path, and different output paths give different artifact
bytes even for identical certificate inputs. -/
theorem c10_output_name_in_artifact (pemEnc : List Nat → String) (certs : List Certificate)
    (out : String) :
    ('\n' ∉ out.data → firstLine (emitBuffer pemEnc out certs) =
      "// Code generated by roots_gen --output " ++ out ++ "; DO NOT EDIT.") ∧
    ∀ out2, out ≠ out2 → emitBuffer pemEnc out certs ≠ emitBuffer pemEnc out2 certs := by
  constructor
  · intro hnl
    apply String.ext
    show ((emitBuffer pemEnc out certs).data.takeWhile (fun c => c != '\n')) = _
    rw [emitBuffer, genLine]
    simp only [String.data_append, List.append_assoc]
    rw [takeWhile_append_all (by decide)]
    rw [takeWhile_append_all (fun c hc => by
      simp only [bne_iff_ne, ne_eq, decide_eq_true_eq]
      intro heq
      exact hnl (heq ▸ hc))]
    have hcons :
        ([';', ' ', 'D', 'O', ' ', 'N', 'O', 'T', ' ', 'E', 'D', 'I', 'T', '.', '\n'] :
            List Char) =
          [';', ' ', 'D', 'O', ' ', 'N', 'O', 'T', ' ', 'E', 'D', 'I', 'T', '.'] ++ ['\n'] := by
      decide
    rw [hcons, List.append_assoc, takeWhile_append_all (by decide), List.singleton_append,
      List.takeWhile_cons]
    simp
  · intro out2 hne heq
    apply hne
    apply String.ext
    have h2 := congrArg String.data heq
    simp only [emitBuffer, genLine, String.data_append, List.append_assoc] at h2
    have h3 := List.append_cancel_left h2
    exact List.append_cancel_right h3

theorem c10_output_name_in_artifact_w :
    firstLine (emitBuffer pemEncW "roots_list.go" []) =
        "// Code generated by roots_gen --output " ++ "roots_list.go" ++ "; DO NOT EDIT." ∧
    emitBuffer pemEncW "roots_list.go" [] ≠ emitBuffer pemEncW "a.go" [] :=
  ⟨(c10_output_name_in_artifact pemEncW [] "roots_list.go").1 (by decide),
   (c10_output_name_in_artifact pemEncW [] "roots_list.go").2 "a.go" (by decide)⟩
